import Mathlib

set_option maxHeartbeats 1000000
set_option maxRecDepth 4096

/-!
Shallow embedding of the WebSocket connection hub of the message app
(backend/internal/websocket/hub.go, the upgrade handler in the HTTP
handlers file, and the persistence calls in backend/internal/db/db.go).

Modelling conventions:
* Go pointers to Client values are modelled by a numeric id field `cid`;
  the hub maps `clients` (a set keyed by pointer) and `userMap` are lists
  keyed by `cid` resp. by user id.
* A buffered Go channel is a `Chan`: a FIFO buffer, a capacity and a
  closed flag.  A non-blocking send (select with default) succeeds when
  the channel is open and has room, takes the default branch when it is
  full, and faults when the channel is closed (send on a closed channel).
  Closing a closed channel also faults.  Faults are recorded in the
  `faulted` flag of the hub state.
* Serialized envelopes cross the hub as `Wire` values; JSON encoding of
  the envelopes the hub constructs itself always succeeds, and callers of
  the delivery functions pass the encoding result as `Option Wire` so the
  encode-failure branch of SendToUser / SendToConversation is kept.
* The database is an oracle `Db` (SaveMessage returns the generated id or
  an error; GetConversationParticipantIDs returns the list or an error).
-/

namespace MessageApp

/-- Client as in hub.go: pointer identity `cid`, user id and name.  The
send channel state lives in the hub state heap, keyed by `cid`. -/
structure Client where
  cid : Nat
  userID : Int
  username : String
deriving DecidableEq

/-- Persisted message record (models.Message after SaveMessage set ID). -/
structure Message where
  id : Int
  conversationId : Int
  senderId : Int
  content : String
  createdAt : Nat
deriving DecidableEq

/-- Serialized outbound envelope (WebSocketMessage after json.Marshal). -/
inductive Wire where
  | system (text : String)
  | message (m : Message)
  | typing (userId : Int) (conversationId : Int) (isTyping : Bool)
deriving DecidableEq

/-- State of one buffered Go channel. -/
structure Chan where
  buf : List Wire
  cap : Nat
  closed : Bool
deriving DecidableEq

/-- Result of a send attempted inside a select with a default branch. -/
inductive TrySend where
  | ok (ch : Chan)
  | panicked
  | wouldBlock
deriving DecidableEq

/-- Non-blocking channel send: a send on a closed channel faults, a send
on a full open channel takes the default branch, otherwise it appends. -/
def trySend (ch : Chan) (w : Wire) : TrySend :=
  if ch.closed then .panicked
  else if ch.buf.length < ch.cap then .ok ⟨ch.buf ++ [w], ch.cap, ch.closed⟩
  else .wouldBlock

/-- Pointwise update of the channel heap. -/
def updateF (f : Nat → Chan) (k : Nat) (v : Chan) : Nat → Chan :=
  fun k2 => if k2 = k then v else f k2

/-- close(ch): faults (second component true) when already closed. -/
def closeChan (f : Nat → Chan) (k : Nat) : (Nat → Chan) × Bool :=
  if (f k).closed then (f, true)
  else (updateF f k ⟨(f k).buf, (f k).cap, true⟩, false)

/-- Assoc-list lookup, first match wins (Go map read). -/
def lookupA (m : List (Int × Client)) (k : Int) : Option Client :=
  match m with
  | [] => none
  | e :: rest => if e.1 = k then some e.2 else lookupA rest k

/-- Assoc-list write (Go map assignment): replaces the first entry with
the key, appends when the key is absent. -/
def updateA (m : List (Int × Client)) (k : Int) (v : Client) :
    List (Int × Client) :=
  match m with
  | [] => [(k, v)]
  | e :: rest => if e.1 = k then (k, v) :: rest else e :: updateA rest k v

/-- Assoc-list delete (Go map delete). -/
def removeA (m : List (Int × Client)) (k : Int) : List (Int × Client) :=
  m.filter (fun e => e.1 ≠ k)

/-- Hub state: live client set, user map, channel heap, fault flag. -/
structure HubState where
  clients : List Client
  userMap : List (Int × Client)
  chans : Nat → Chan
  faulted : Bool

/-- Welcome-message enqueue performed by the Register case of Hub.Run:
a blocking send of the system envelope onto the fresh client channel
(second component records a fault from sending on a closed channel). -/
def welcomeChans (f : Nat → Chan) (k : Nat) : (Nat → Chan) × Bool :=
  match trySend (f k) (.system "Connected to chat server") with
  | .ok ch => (updateF f k ch, false)
  | .panicked => (f, true)
  | .wouldBlock => (f, false)

/-- Register case of Hub.Run: insert into the client set and the user
map (overwriting an existing entry for the same identity), then enqueue
the welcome envelope. -/
def hubRegister (s : HubState) (c : Client) : HubState :=
  { clients := if s.clients.any (fun x => x.cid == c.cid) then s.clients
               else s.clients ++ [c],
    userMap := updateA s.userMap c.userID c,
    chans := (welcomeChans s.chans c.cid).1,
    faulted := s.faulted || (welcomeChans s.chans c.cid).2 }

/-- Unregister case of Hub.Run: when the client is in the live set,
delete it from both structures and close its channel; otherwise no-op. -/
def hubUnregister (s : HubState) (c : Client) : HubState :=
  if s.clients.any (fun x => x.cid == c.cid) then
    { clients := s.clients.filter (fun x => x.cid ≠ c.cid),
      userMap := removeA s.userMap c.userID,
      chans := (closeChan s.chans c.cid).1,
      faulted := s.faulted || (closeChan s.chans c.cid).2 }
  else s

/-- Errors a delivery call can return (only the JSON-encode failure). -/
inductive Err where
  | marshalErr
deriving DecidableEq

/-- Hub.SendToUser: look the user up; absent users are a silent no-op
returning nil.  Then encode (mdata = none models the encode failure).
Non-blocking send; on a full queue, close the channel and delete the
client from both structures, still returning nil. -/
def sendToUser (s : HubState) (uid : Int) (mdata : Option Wire) :
    HubState × Option Err :=
  match lookupA s.userMap uid with
  | none => (s, none)
  | some c =>
    match mdata with
    | none => (s, some .marshalErr)
    | some w =>
      match trySend (s.chans c.cid) w with
      | .ok ch => ({ s with chans := updateF s.chans c.cid ch }, none)
      | .panicked => ({ s with faulted := true }, none)
      | .wouldBlock =>
        ({ clients := s.clients.filter (fun x => x.cid ≠ c.cid),
           userMap := removeA s.userMap c.userID,
           chans := (closeChan s.chans c.cid).1,
           faulted := s.faulted || (closeChan s.chans c.cid).2 }, none)

/-- One participant step of Hub.SendToConversation: absent participants
are skipped, a full queue is skipped with continue (no eviction). -/
def deliverStep (w : Wire) (st : HubState) (uid : Int) : HubState :=
  match lookupA st.userMap uid with
  | none => st
  | some c =>
    match trySend (st.chans c.cid) w with
    | .ok ch => { st with chans := updateF st.chans c.cid ch }
    | .panicked => { st with faulted := true }
    | .wouldBlock => st

/-- Hub.SendToConversation: encode once, then attempt a non-blocking
send to each entry of the supplied participant list in order. -/
def sendToConversation (s : HubState) (_conversationID : Int)
    (mdata : Option Wire) (ps : List Int) : HubState × Option Err :=
  match mdata with
  | none => (s, some .marshalErr)
  | some w => (ps.foldl (deliverStep w) s, none)

/-- One client step of the Broadcast case of Hub.Run: on a full queue
the client channel is closed and the client deleted from both maps. -/
def broadcastStep (w : Wire) (st : HubState) (c : Client) : HubState :=
  match trySend (st.chans c.cid) w with
  | .ok ch => { st with chans := updateF st.chans c.cid ch }
  | .panicked => { st with faulted := true }
  | .wouldBlock =>
    { clients := st.clients.filter (fun x => x.cid ≠ c.cid),
      userMap := removeA st.userMap c.userID,
      chans := (closeChan st.chans c.cid).1,
      faulted := st.faulted || (closeChan st.chans c.cid).2 }

/-- Broadcast case of Hub.Run, iterating over the registered clients. -/
def hubBroadcast (s : HubState) (w : Wire) : HubState :=
  s.clients.foldl (broadcastStep w) s

/-- Database oracle: SaveMessage yields the generated id or fails;
GetConversationParticipantIDs yields the participant list or fails. -/
structure Db where
  save : Int → Int → String → Nat → Option Int
  participantsOf : Int → Option (List Int)

/-- Database calls observable from the inbound pump. -/
inductive DbCall where
  | save (conversationId senderId : Int) (content : String)
  | getParticipants (conversationId : Int)
deriving DecidableEq

/-- Decoded inbound frame (WebSocketMessage after json.Unmarshal). -/
inductive Frame where
  | message (conversationId : Int) (content : String)
  | typing (conversationId : Int) (isTyping : Bool)
  | malformed
deriving DecidableEq

/-- One iteration of Client.ReadPump on a decoded frame, returning the
new hub state and the trace of database calls made.  A chat frame is
saved first; a save failure drops the frame (continue).  A participant
lookup failure also drops the frame.  On success the saved record is the
payload handed to SendToConversation.  A typing frame goes to Broadcast
with no database call.  A malformed frame is skipped. -/
def handleFrame (db : Db) (senderId : Int) (now : Nat) (s : HubState) :
    Frame → HubState × List DbCall
  | .message convId content =>
    match db.save convId senderId content now with
    | none => (s, [.save convId senderId content])
    | some newId =>
      match db.participantsOf convId with
      | none => (s, [.save convId senderId content, .getParticipants convId])
      | some ps =>
        ((sendToConversation s convId
            (some (.message ⟨newId, convId, senderId, content, now⟩)) ps).1,
         [.save convId senderId content, .getParticipants convId])
  | .typing convId isTyping =>
    (hubBroadcast s (.typing senderId convId isTyping), [])
  | .malformed => (s, [])

/-- The read loop of Client.ReadPump over a list of decoded frames. -/
def readPumpFrames (db : Db) (senderId : Int) (now : Nat)
    (s : HubState) (frames : List Frame) : HubState :=
  frames.foldl (fun st f => (handleFrame db senderId now st f).1) s

/-- Outcome of running Client.WritePump for a bounded number of steps. -/
inductive PumpOutcome where
  | running
  | exitClosed
  | exitWriteErr
deriving DecidableEq

/-- Result of a WritePump run: outcome, frames written to the transport,
whether the close frame was written, whether the transport was closed
(the deferred conn.Close fires on any return). -/
structure PumpResult where
  outcome : PumpOutcome
  written : List Wire
  sentCloseFrame : Bool
  connClosed : Bool
deriving DecidableEq

/-- Client.WritePump: receive from the send channel; a receive on a
closed drained channel yields not-ok, on which the pump writes the close
frame and returns; otherwise it writes the frame (the write oracle `wOk`
says whether the n-th transport write succeeds) and loops; a failed
write returns.  Fuel bounds the number of iterations; an open empty
channel blocks (outcome `running`). -/
def writePumpRun (wOk : Nat → Bool) : Nat → Nat → Chan → List Wire → PumpResult
  | 0, _, _, acc => ⟨.running, acc, false, false⟩
  | Nat.succ fuel, i, ch, acc =>
    match ch.buf with
    | [] =>
      if ch.closed then ⟨.exitClosed, acc, true, true⟩
      else ⟨.running, acc, false, false⟩
    | w :: rest =>
      if wOk i then writePumpRun wOk fuel (i + 1) ⟨rest, ch.cap, ch.closed⟩ (acc ++ [w])
      else ⟨.exitWriteErr, acc, false, true⟩

/-- Bearer credential on the upgrade request: absent, or a token with a
signature-validity flag, an expiry flag and the embedded user id. -/
inductive Credential where
  | missing
  | token (sigValid : Bool) (expired : Bool) (userID : Int)
deriving DecidableEq

/-- Outcome of the upgrade endpoint. -/
inductive UpgradeResult where
  | rejected (status : Nat) (body : String)
  | connected (c : Client)
deriving DecidableEq

/-- Handlers.HandleWebSocket: read the auth cookie (401 when absent),
parse and validate the token (401 on a bad signature or expiry), resolve
the user id (404 when unknown), and only then upgrade, construct the
client with a fresh channel id and hand it to the Register case. -/
def handleWebSocket (users : Int → Option String) (s : HubState)
    (cred : Credential) (freshCid : Nat) : HubState × UpgradeResult :=
  match cred with
  | .missing => (s, .rejected 401 "Unauthorized")
  | .token sigValid expired uid =>
    if !sigValid || expired then (s, .rejected 401 "Unauthorized")
    else
      match users uid with
      | none => (s, .rejected 404 "User not found")
      | some uname =>
        (hubRegister s ⟨freshCid, uid, uname⟩, .connected ⟨freshCid, uid, uname⟩)

/-- Registry consistency: the live set and the user map are a bijection
(every live client is found under its own user id, every map entry names
a live client under its user id, keys and client ids are duplicate
free). -/
def good (s : HubState) : Prop :=
  (∀ c ∈ s.clients, lookupA s.userMap c.userID = some c) ∧
  (∀ e ∈ s.userMap, e.2 ∈ s.clients ∧ e.2.userID = e.1) ∧
  (s.userMap.map Prod.fst).Nodup ∧
  (s.clients.map (fun c => c.cid)).Nodup

instance (s : HubState) : Decidable (good s) := by
  unfold good; infer_instance

/-- Registry operations arriving on the Register / Unregister queues. -/
inductive HubOp where
  | register (c : Client)
  | unregister (c : Client)

/-- One step of the Hub.Run event loop. -/
def hubStep (s : HubState) : HubOp → HubState
  | .register c => hubRegister s c
  | .unregister c => hubUnregister s c

/-- A sequence of registry operations processed by Hub.Run. -/
def runOps (s : HubState) (ops : List HubOp) : HubState :=
  ops.foldl hubStep s

/-- Well-formed operation sequence: every registration is of a freshly
constructed connection (new pointer) whose identity is not currently
mapped, and every unregistration names the actual stored connection when
its pointer is present. -/
def okRun : HubState → List HubOp → Prop
  | _, [] => True
  | s, (HubOp.register c) :: rest =>
    lookupA s.userMap c.userID = none ∧
    c.cid ∉ s.clients.map (fun x => x.cid) ∧
    okRun (hubStep s (.register c)) rest
  | s, (HubOp.unregister c) :: rest =>
    (∀ x ∈ s.clients, x.cid = c.cid → x = c) ∧
    okRun (hubStep s (.unregister c)) rest

/-- Number of occurrences in a participant list of identities currently
mapped to the client with channel id `k`. -/
def hitB (m : List (Int × Client)) (k : Nat) (u : Int) : Bool :=
  match lookupA m u with
  | some c => c.cid == k
  | none => false

def hits (m : List (Int × Client)) (k : Nat) : List Int → Nat
  | [] => 0
  | u :: rest => (if hitB m k u then 1 else 0) + hits m k rest

/-- Number of occurrences of an identity in a participant list. -/
def countOcc (u : Int) : List Int → Nat
  | [] => 0
  | v :: rest => (if v = u then 1 else 0) + countOcc u rest

/-! Concrete states used by witnesses and counterexamples. -/

def wX : Wire := .system "x"

def emptyChan : Chan := ⟨[], 256, false⟩

def fullChan : Chan := ⟨List.replicate 256 wX, 256, false⟩

def cAlice : Client := ⟨0, 1, "alice"⟩

def cBob : Client := ⟨1, 2, "bob"⟩

def sEmpty : HubState := ⟨[], [], fun _ => emptyChan, false⟩

def sAlice : HubState := ⟨[cAlice], [(1, cAlice)], fun _ => emptyChan, false⟩

/-- State with only bob registered and the bob outbound queue full. -/
def sBobFull : HubState :=
  ⟨[cBob], [(2, cBob)], fun k => if k = 1 then fullChan else emptyChan, false⟩

/-- C4 (confirmed): direct delivery to an identity with no registered
connection returns success (no error), enqueues nothing and leaves the
registry state unchanged. -/
theorem sendToUser_absent_noop (s : HubState) (uid : Int) (mdata : Option Wire)
    (h : lookupA s.userMap uid = none) :
    sendToUser s uid mdata = (s, none) := by
  unfold sendToUser
  rw [h]

theorem sendToUser_absent_noop_witness :
    lookupA sEmpty.userMap 9 = none ∧
    sendToUser sEmpty 9 (some wX) = (sEmpty, none) :=
  ⟨rfl, sendToUser_absent_noop sEmpty 9 (some wX) rfl⟩

/-- Helper: unregistering a client whose pointer is not in the live set
leaves the state unchanged. -/
theorem hubUnregister_noop (s : HubState) (c : Client)
    (h : ¬ s.clients.any (fun x => x.cid == c.cid) = true) :
    hubUnregister s c = s := by
  unfold hubUnregister
  rw [if_neg h]

/-- C7 (confirmed): unregistering a connection that is not in the live
set leaves the state unchanged (the live set and identity map are
untouched and no queue is closed), and unregistering is idempotent. -/
theorem unregister_absent_noop (s : HubState) (c : Client)
    (h : c.cid ∉ s.clients.map (fun x => x.cid)) :
    hubUnregister s c = s ∧
    ∀ s2 : HubState, hubUnregister (hubUnregister s2 c) c = hubUnregister s2 c := by
  constructor
  · apply hubUnregister_noop
    simp only [List.any_eq_true, beq_iff_eq]
    rintro ⟨x, hx, hcid⟩
    exact h (List.mem_map.mpr ⟨x, hx, hcid⟩)
  · intro s2
    by_cases h2 : s2.clients.any (fun x => x.cid == c.cid) = true
    · have h3 : (hubUnregister s2 c).clients
          = s2.clients.filter (fun x => x.cid ≠ c.cid) := by
        unfold hubUnregister
        rw [if_pos h2]
      apply hubUnregister_noop
      rw [h3]
      simp only [List.any_eq_true, beq_iff_eq, List.mem_filter,
        decide_eq_true_eq]
      rintro ⟨x, ⟨hx, hne⟩, hcid⟩
      exact hne hcid
    · have hid : hubUnregister s2 c = s2 := hubUnregister_noop s2 c h2
      simp only [hid]

theorem unregister_absent_noop_witness :
    cBob.cid ∉ sAlice.clients.map (fun x => x.cid) ∧
    hubUnregister sAlice cBob = sAlice :=
  ⟨by decide, (unregister_absent_noop sAlice cBob (by decide)).1⟩

/-- C1 counterexample: bob is registered and the bob outbound queue is
full, yet scoped delivery to bob leaves the state entirely unchanged —
bob is still in the live set and the identity map and the bob queue is
not closed, so the saturated recipient of a scoped delivery is NOT
evicted. -/
theorem scoped_full_queue_not_evicted_cex :
    (sendToConversation sBobFull 7 (some wX) [2]).1 = sBobFull ∧
    cBob ∈ sBobFull.clients ∧
    lookupA sBobFull.userMap 2 = some cBob ∧
    (sBobFull.chans cBob.cid).closed = false ∧
    (sBobFull.chans cBob.cid).cap ≤ (sBobFull.chans cBob.cid).buf.length :=
  ⟨rfl, by decide, by decide, rfl, by decide⟩

/-- Clients with the same user identity, distinct pointers. -/
def cDupA : Client := ⟨10, 5, "first"⟩

def cDupB : Client := ⟨11, 5, "second"⟩

/-- C2 counterexample: registering a second connection for an already
registered identity and then unregistering the superseded connection
does NOT restore the bijection: the unregister deletes the identity-map
entry by user id, which removes the entry of the replacing connection,
leaving that connection live with no identity-map entry. -/
theorem overwrite_unregister_breaks_bijection_cex :
    ¬ good (runOps sEmpty
        [.register cDupA, .register cDupB, .unregister cDupA]) ∧
    cDupB ∈ (runOps sEmpty
        [.register cDupA, .register cDupB, .unregister cDupA]).clients ∧
    lookupA (runOps sEmpty
        [.register cDupA, .register cDupB, .unregister cDupA]).userMap
      cDupB.userID = none :=
  ⟨by decide, by decide, by decide⟩

/-- Identity oracle with no users. -/
def noUsers : Int → Option String := fun _ => none

/-- C5 counterexample: three different admission failures — missing
credential, invalid signature, expired token — all produce the identical
rejection (status 401, body Unauthorized), so the responses for distinct
failures are not distinct. -/
theorem admission_responses_not_distinct_cex :
    handleWebSocket noUsers sEmpty .missing 0
      = handleWebSocket noUsers sEmpty (.token false false 3) 0 ∧
    handleWebSocket noUsers sEmpty .missing 0
      = handleWebSocket noUsers sEmpty (.token true true 3) 0 ∧
    (handleWebSocket noUsers sEmpty .missing 0).2
      = .rejected 401 "Unauthorized" :=
  ⟨rfl, rfl, rfl⟩

/-- Open channel holding one frame. -/
def openOneChan : Chan := ⟨[wX], 256, false⟩

/-- C6 counterexample: with the queue open (never closed) a failing
transport write makes the outbound pump terminate (and close the
transport), so queue closure is not the only termination cause. -/
theorem writePump_exits_on_write_error_cex :
    (writePumpRun (fun _ => false) 5 0 openOneChan []).outcome
      = .exitWriteErr ∧
    (writePumpRun (fun _ => false) 5 0 openOneChan []).connClosed = true ∧
    openOneChan.closed = false :=
  ⟨rfl, rfl, rfl⟩

/-- C6 (corrected, amended): the outbound pump terminates precisely when
the queue is closed (and drained) or a transport write fails; it never
terminates while the queue is open and all writes succeed; and on any
termination the transport is closed. -/
theorem writePump_termination_amended :
    (∀ (wOk : Nat → Bool) (fuel i : Nat) (ch : Chan) (acc : List Wire),
      (∀ n, wOk n = true) → ch.closed = false →
      (writePumpRun wOk fuel i ch acc).outcome = .running) ∧
    (∀ (wOk : Nat → Bool) (fuel i : Nat) (ch : Chan) (acc : List Wire),
      (∀ n, wOk n = true) → ch.closed = true → ch.buf.length < fuel →
      (writePumpRun wOk fuel i ch acc).outcome = .exitClosed ∧
      (writePumpRun wOk fuel i ch acc).connClosed = true) ∧
    (∀ (wOk : Nat → Bool) (fuel i : Nat) (ch : Chan) (acc : List Wire),
      (writePumpRun wOk fuel i ch acc).outcome ≠ .running →
      (writePumpRun wOk fuel i ch acc).connClosed = true) := by
  refine ⟨?_, ?_, ?_⟩
  · intro wOk fuel
    induction fuel with
    | zero => intro i ch acc _ _; rfl
    | succ n ih =>
      intro i ch acc hall hopen
      obtain ⟨buf, cp, cl⟩ := ch
      cases buf with
      | nil =>
        simp only at hopen
        simp [writePumpRun, hopen]
      | cons w rest =>
        simp only at hopen
        simp only [writePumpRun, hall i, if_true]
        exact ih (i + 1) ⟨rest, cp, cl⟩ (acc ++ [w]) hall hopen
  · intro wOk fuel
    induction fuel with
    | zero => intro i ch acc _ _ hlt; omega
    | succ n ih =>
      intro i ch acc hall hcl hlt
      obtain ⟨buf, cp, cl⟩ := ch
      cases buf with
      | nil =>
        simp only at hcl
        simp [writePumpRun, hcl]
      | cons w rest =>
        simp only at hcl
        simp only [writePumpRun, hall i, if_true]
        exact ih (i + 1) ⟨rest, cp, cl⟩ (acc ++ [w]) hall hcl
          (by simpa using Nat.lt_of_succ_lt_succ hlt)
  · intro wOk fuel
    induction fuel with
    | zero => intro i ch acc hne; exact absurd rfl hne
    | succ n ih =>
      intro i ch acc hne
      obtain ⟨buf, cp, cl⟩ := ch
      cases buf with
      | nil =>
        by_cases hcl : cl = true
        · simp [writePumpRun, hcl]
        · simp only [Bool.not_eq_true] at hcl
          simp [writePumpRun, hcl] at hne
      | cons w rest =>
        by_cases hw : wOk i = true
        · simp only [writePumpRun, hw, if_true] at hne ⊢
          exact ih (i + 1) ⟨rest, cp, cl⟩ (acc ++ [w]) hne
        · simp only [Bool.not_eq_true] at hw
          simp [writePumpRun, hw]

/-! Lemmas about the per-participant step of scoped delivery. -/

theorem deliverStep_userMap (w : Wire) (st : HubState) (uid : Int) :
    (deliverStep w st uid).userMap = st.userMap := by
  unfold deliverStep
  split
  next => rfl
  next c heq => split <;> rfl

theorem deliverStep_clients (w : Wire) (st : HubState) (uid : Int) :
    (deliverStep w st uid).clients = st.clients := by
  unfold deliverStep
  split
  next => rfl
  next c heq => split <;> rfl

/-- Result of a delivery step on a registered recipient with room: the
recipient buffer gains the envelope, other channels are untouched. -/
theorem deliverStep_hit (w : Wire) (st : HubState) (uid : Int) (c : Client)
    (hlc : lookupA st.userMap uid = some c)
    (hcl : (st.chans c.cid).closed = false)
    (hlt : (st.chans c.cid).buf.length < (st.chans c.cid).cap) :
    ((deliverStep w st uid).chans c.cid).buf = (st.chans c.cid).buf ++ [w] ∧
    ((deliverStep w st uid).chans c.cid).cap = (st.chans c.cid).cap ∧
    ((deliverStep w st uid).chans c.cid).closed = false ∧
    (∀ j, ¬ j = c.cid → (deliverStep w st uid).chans j = st.chans j) := by
  have hts : trySend (st.chans c.cid) w
      = .ok ⟨(st.chans c.cid).buf ++ [w], (st.chans c.cid).cap, false⟩ := by
    unfold trySend
    rw [if_neg (by simp [hcl]), if_pos hlt, hcl]
  simp only [deliverStep, hlc, hts]
  refine ⟨?_, ?_, ?_, ?_⟩
  · show ((updateF st.chans c.cid _) c.cid).buf = _
    unfold updateF
    rw [if_pos rfl]
  · show ((updateF st.chans c.cid _) c.cid).cap = _
    unfold updateF
    rw [if_pos rfl]
  · show ((updateF st.chans c.cid _) c.cid).closed = false
    unfold updateF
    rw [if_pos rfl]
  · intro j hj
    show (updateF st.chans c.cid _) j = st.chans j
    unfold updateF
    rw [if_neg hj]

theorem deliverStep_chans_other (w : Wire) (st : HubState) (uid : Int) (k : Nat)
    (h : hitB st.userMap k uid = false) :
    (deliverStep w st uid).chans k = st.chans k := by
  unfold hitB at h
  unfold deliverStep
  split
  next => rfl
  next c heq =>
    rw [heq] at h
    have hk : ¬ k = c.cid := fun hkk => by
      rw [hkk] at h
      simp at h
    split
    next ch heq2 =>
      show updateF st.chans c.cid ch k = st.chans k
      unfold updateF
      rw [if_neg hk]
    next => rfl
    next => rfl

theorem deliverStep_chans_full (w : Wire) (st : HubState) (uid : Int) (k : Nat)
    (hcl : (st.chans k).closed = false)
    (hfull : (st.chans k).cap ≤ (st.chans k).buf.length) :
    (deliverStep w st uid).chans k = st.chans k := by
  unfold deliverStep
  split
  next => rfl
  next c heq =>
    by_cases hk : c.cid = k
    · subst hk
      have hts : trySend (st.chans c.cid) w = .wouldBlock := by
        unfold trySend
        rw [if_neg (by simp [hcl]), if_neg (by omega)]
      rw [hts]
    · split
      next ch heq2 =>
        show updateF st.chans c.cid ch k = st.chans k
        unfold updateF
        rw [if_neg (fun hkk => hk hkk.symm)]
      next => rfl
      next => rfl

/-! Lemmas about the scoped-delivery fold over a participant list. -/

theorem scopedFold_userMap (ps : List Int) :
    ∀ (st : HubState) (w : Wire),
      (ps.foldl (deliverStep w) st).userMap = st.userMap := by
  induction ps with
  | nil => intro st w; rfl
  | cons u rest ih =>
    intro st w
    rw [List.foldl_cons, ih, deliverStep_userMap]

theorem scopedFold_clients (ps : List Int) :
    ∀ (st : HubState) (w : Wire),
      (ps.foldl (deliverStep w) st).clients = st.clients := by
  induction ps with
  | nil => intro st w; rfl
  | cons u rest ih =>
    intro st w
    rw [List.foldl_cons, ih, deliverStep_clients]

theorem scopedFold_chans_full (ps : List Int) :
    ∀ (st : HubState) (w : Wire) (k : Nat),
      (st.chans k).closed = false →
      (st.chans k).cap ≤ (st.chans k).buf.length →
      (ps.foldl (deliverStep w) st).chans k = st.chans k := by
  induction ps with
  | nil => intro st w k _ _; rfl
  | cons u rest ih =>
    intro st w k hcl hfull
    rw [List.foldl_cons]
    have hstep := deliverStep_chans_full w st u k hcl hfull
    rw [ih (deliverStep w st u) w k (by rw [hstep]; exact hcl)
        (by rw [hstep]; exact hfull), hstep]

theorem scopedFold_buf (ps : List Int) :
    ∀ (st : HubState) (w : Wire) (k : Nat),
      (st.chans k).closed = false →
      (st.chans k).buf.length + hits st.userMap k ps ≤ (st.chans k).cap →
      ((ps.foldl (deliverStep w) st).chans k).buf
          = (st.chans k).buf ++ List.replicate (hits st.userMap k ps) w ∧
      ((ps.foldl (deliverStep w) st).chans k).cap = (st.chans k).cap ∧
      ((ps.foldl (deliverStep w) st).chans k).closed = false := by
  induction ps with
  | nil =>
    intro st w k hcl _
    refine ⟨?_, rfl, hcl⟩
    simp [hits]
  | cons u rest ih =>
    intro st w k hcl hle
    rw [List.foldl_cons]
    by_cases hb : hitB st.userMap k u = true
    · rcases hlc : lookupA st.userMap u with _ | c
      · unfold hitB at hb
        rw [hlc] at hb
        simp at hb
      · have hck : c.cid = k := by
          unfold hitB at hb
          rw [hlc] at hb
          simpa using hb
        subst hck
        have hhits : hits st.userMap c.cid (u :: rest)
            = 1 + hits st.userMap c.cid rest := by
          simp [hits, hitB, hlc]
        have hlt : (st.chans c.cid).buf.length < (st.chans c.cid).cap := by
          rw [hhits] at hle
          omega
        obtain ⟨hbuf1, hcap1, hcl1, _⟩ := deliverStep_hit w st u c hlc hcl hlt
        have hum := deliverStep_userMap w st u
        have hrec := ih (deliverStep w st u) w c.cid hcl1
          (by rw [hbuf1, hcap1, hum]
              simp only [List.length_append, List.length_singleton]
              rw [hhits] at hle
              omega)
        rw [hum] at hrec
        refine ⟨?_, ?_, hrec.2.2⟩
        · rw [hrec.1, hbuf1, hhits,
            Nat.add_comm 1 (hits st.userMap c.cid rest), List.replicate_succ]
          simp [List.append_assoc]
        · rw [hrec.2.1, hcap1]
    · have hb2 : hitB st.userMap k u = false := by
        cases hx : hitB st.userMap k u
        · rfl
        · exact absurd hx hb
      have hch := deliverStep_chans_other w st u k hb2
      have hum := deliverStep_userMap w st u
      have hhits : hits st.userMap k (u :: rest) = hits st.userMap k rest := by
        simp [hits, hb2]
      rw [hhits]
      have hrec := ih (deliverStep w st u) w k (by rw [hch]; exact hcl)
          (by rw [hch, hum, ← hhits]; exact hle)
      rw [hum, hch] at hrec
      exact hrec

/-! Lemmas about the broadcast fold over the registered clients. -/

theorem closeChan_other (f : Nat → Chan) (k j : Nat) (hj : ¬ j = k) :
    (closeChan f k).1 j = f j := by
  unfold closeChan
  split
  · rfl
  · show (updateF f k _) j = f j
    unfold updateF
    rw [if_neg hj]

theorem broadcastStep_chans_other (w : Wire) (st : HubState) (d : Client)
    (k : Nat) (hk : ¬ k = d.cid) :
    (broadcastStep w st d).chans k = st.chans k := by
  unfold broadcastStep
  split
  next ch heq =>
    show (updateF st.chans d.cid ch) k = st.chans k
    unfold updateF
    rw [if_neg hk]
  next => rfl
  next =>
    show (closeChan st.chans d.cid).1 k = st.chans k
    exact closeChan_other st.chans d.cid k hk

theorem broadcastStep_clients_subset (w : Wire) (st : HubState) (d : Client)
    (x : Client) (hx : x ∈ (broadcastStep w st d).clients) : x ∈ st.clients := by
  unfold broadcastStep at hx
  revert hx
  split
  next => exact fun hx => hx
  next => exact fun hx => hx
  next =>
    intro hx
    exact (List.mem_filter.mp hx).1

theorem lookupA_filter_none (m : List (Int × Client)) (p : Int × Client → Bool)
    (k : Int) (h : lookupA m k = none) : lookupA (m.filter p) k = none := by
  induction m with
  | nil => rfl
  | cons e rest ih =>
    unfold lookupA at h
    by_cases he : e.1 = k
    · rw [if_pos he] at h
      exact absurd h (by simp)
    · rw [if_neg he] at h
      cases hp : p e with
      | true =>
        have hf : (e :: rest).filter p = e :: rest.filter p := by
          simp [List.filter_cons, hp]
        rw [hf]
        unfold lookupA
        rw [if_neg he]
        exact ih h
      | false =>
        have hf : (e :: rest).filter p = rest.filter p := by
          simp [List.filter_cons, hp]
        rw [hf]
        exact ih h

theorem lookupA_removeA_self (m : List (Int × Client)) (k : Int) :
    lookupA (removeA m k) k = none := by
  induction m with
  | nil => rfl
  | cons e rest ih =>
    unfold removeA at *
    by_cases he : e.1 = k
    · have hf : (e :: rest).filter (fun e => e.1 ≠ k)
          = rest.filter (fun e => e.1 ≠ k) := by
        simp [List.filter_cons, he]
      rw [hf]
      exact ih
    · have hf : (e :: rest).filter (fun e => e.1 ≠ k)
          = e :: rest.filter (fun e => e.1 ≠ k) := by
        simp [List.filter_cons, he]
      rw [hf]
      unfold lookupA
      rw [if_neg he]
      exact ih

theorem broadcastStep_lookup_none (w : Wire) (st : HubState) (d : Client)
    (k : Int) (h : lookupA st.userMap k = none) :
    lookupA (broadcastStep w st d).userMap k = none := by
  unfold broadcastStep
  split
  next => exact h
  next => exact h
  next =>
    show lookupA (removeA st.userMap d.userID) k = none
    unfold removeA
    exact lookupA_filter_none st.userMap _ k h

theorem bfold_preserve (l : List Client) :
    ∀ (st : HubState) (w : Wire) (k : Nat) (u0 : Int),
      (∀ d ∈ l, ¬ k = d.cid) →
      ((l.foldl (broadcastStep w) st).chans k = st.chans k ∧
       (∀ x ∈ (l.foldl (broadcastStep w) st).clients, x ∈ st.clients) ∧
       (lookupA st.userMap u0 = none →
        lookupA (l.foldl (broadcastStep w) st).userMap u0 = none)) := by
  induction l with
  | nil =>
    intro st w k u0 _
    exact ⟨rfl, fun x hx => hx, fun h => h⟩
  | cons d rest ih =>
    intro st w k u0 hcids
    rw [List.foldl_cons]
    have hd : ¬ k = d.cid := hcids d (List.mem_cons_self d rest)
    have hrest : ∀ d2 ∈ rest, ¬ k = d2.cid :=
      fun d2 h2 => hcids d2 (List.mem_cons_of_mem d h2)
    obtain ⟨h1, h2, h3⟩ := ih (broadcastStep w st d) w k u0 hrest
    refine ⟨?_, ?_, ?_⟩
    · rw [h1, broadcastStep_chans_other w st d k hd]
    · intro x hx
      exact broadcastStep_clients_subset w st d x (h2 x hx)
    · intro h0
      exact h3 (broadcastStep_lookup_none w st d u0 h0)

/-- Result of a broadcast step on a client with a full open queue: the
queue is closed, the message dropped, the client deleted from both
structures. -/
theorem broadcastStep_full (w : Wire) (st : HubState) (c : Client)
    (hcl : (st.chans c.cid).closed = false)
    (hfull : (st.chans c.cid).cap ≤ (st.chans c.cid).buf.length) :
    (broadcastStep w st c).chans c.cid
        = Chan.mk (st.chans c.cid).buf (st.chans c.cid).cap true ∧
    (∀ x ∈ (broadcastStep w st c).clients, ¬ x.cid = c.cid) ∧
    lookupA (broadcastStep w st c).userMap c.userID = none := by
  have hts : trySend (st.chans c.cid) w = .wouldBlock := by
    unfold trySend
    rw [if_neg (by simp [hcl]), if_neg (by omega)]
  have hcc : closeChan st.chans c.cid
      = (updateF st.chans c.cid
          (Chan.mk (st.chans c.cid).buf (st.chans c.cid).cap true), false) := by
    unfold closeChan
    rw [if_neg (by simp [hcl])]
  simp only [broadcastStep, hts, hcc]
  refine ⟨?_, ?_, ?_⟩
  · show (updateF st.chans c.cid _) c.cid = _
    unfold updateF
    rw [if_pos rfl]
  · intro x hx
    have := (List.mem_filter.mp hx).2
    simpa using this
  · exact lookupA_removeA_self st.userMap c.userID

theorem bfold_evicts (l : List Client) :
    ∀ (st : HubState) (w : Wire) (c : Client), c ∈ l →
      (l.map (fun x => x.cid)).Nodup →
      (st.chans c.cid).closed = false →
      (st.chans c.cid).cap ≤ (st.chans c.cid).buf.length →
      ((l.foldl (broadcastStep w) st).chans c.cid
          = Chan.mk (st.chans c.cid).buf (st.chans c.cid).cap true ∧
       (∀ x ∈ (l.foldl (broadcastStep w) st).clients, ¬ x.cid = c.cid) ∧
       lookupA (l.foldl (broadcastStep w) st).userMap c.userID = none) := by
  induction l with
  | nil =>
    intro st w c hc
    cases hc
  | cons d rest ih =>
    intro st w c hc hnd hcl hfull
    have hnd2 : d.cid ∉ rest.map (fun x => x.cid)
        ∧ (rest.map (fun x => x.cid)).Nodup := by
      rw [List.map_cons, List.nodup_cons] at hnd
      exact hnd
    rw [List.foldl_cons]
    rcases List.mem_cons.mp hc with hcd | hcr
    · subst hcd
      obtain ⟨hs1, hs2, hs3⟩ := broadcastStep_full w st c hcl hfull
      have hcids : ∀ d2 ∈ rest, ¬ c.cid = d2.cid := by
        intro d2 h2 he
        apply hnd2.1
        rw [he]
        exact List.mem_map.mpr ⟨d2, h2, rfl⟩
      obtain ⟨hp1, hp2, hp3⟩ :=
        bfold_preserve rest (broadcastStep w st c) w c.cid c.userID hcids
      refine ⟨?_, ?_, ?_⟩
      · rw [hp1, hs1]
      · intro x hx
        exact hs2 x (hp2 x hx)
      · exact hp3 hs3
    · have hdc : ¬ c.cid = d.cid := by
        intro he
        apply hnd2.1
        rw [← he]
        exact List.mem_map.mpr ⟨c, hcr, rfl⟩
      have hch := broadcastStep_chans_other w st d c.cid hdc
      have hrec := ih (broadcastStep w st d) w c hcr hnd2.2
        (by rw [hch]; exact hcl) (by rw [hch]; exact hfull)
      rw [hch] at hrec
      exact hrec

theorem bfold_delivers (l : List Client) :
    ∀ (st : HubState) (w : Wire) (c : Client), c ∈ l →
      (l.map (fun x => x.cid)).Nodup →
      (st.chans c.cid).closed = false →
      (st.chans c.cid).buf.length < (st.chans c.cid).cap →
      ((l.foldl (broadcastStep w) st).chans c.cid).buf
        = (st.chans c.cid).buf ++ [w] := by
  induction l with
  | nil =>
    intro st w c hc
    cases hc
  | cons d rest ih =>
    intro st w c hc hnd hcl hlt
    have hnd2 : d.cid ∉ rest.map (fun x => x.cid)
        ∧ (rest.map (fun x => x.cid)).Nodup := by
      rw [List.map_cons, List.nodup_cons] at hnd
      exact hnd
    rw [List.foldl_cons]
    rcases List.mem_cons.mp hc with hcd | hcr
    · subst hcd
      have hts : trySend (st.chans c.cid) w
          = .ok (Chan.mk ((st.chans c.cid).buf ++ [w]) (st.chans c.cid).cap false) := by
        unfold trySend
        rw [if_neg (by simp [hcl]), if_pos hlt, hcl]
      have hstep : (broadcastStep w st c).chans c.cid
          = Chan.mk ((st.chans c.cid).buf ++ [w]) (st.chans c.cid).cap false := by
        simp only [broadcastStep, hts]
        show (updateF st.chans c.cid _) c.cid = _
        unfold updateF
        rw [if_pos rfl]
      have hcids : ∀ d2 ∈ rest, ¬ c.cid = d2.cid := by
        intro d2 h2 he
        apply hnd2.1
        rw [he]
        exact List.mem_map.mpr ⟨d2, h2, rfl⟩
      have hp := (bfold_preserve rest (broadcastStep w st c) w c.cid 0 hcids).1
      rw [hp, hstep]
    · have hdc : ¬ c.cid = d.cid := by
        intro he
        apply hnd2.1
        rw [← he]
        exact List.mem_map.mpr ⟨c, hcr, rfl⟩
      have hch := broadcastStep_chans_other w st d c.cid hdc
      have hrec := ih (broadcastStep w st d) w c hcr hnd2.2
        (by rw [hch]; exact hcl) (by rw [hch]; exact hlt)
      rw [hch] at hrec
      exact hrec

/-- Direct delivery to a registered recipient with a full open queue
drops the message, closes the queue and deletes the recipient from both
registry structures, still returning nil. -/
theorem sendToUser_full_evicts (s : HubState) (uid : Int) (w : Wire) (c : Client)
    (hc : lookupA s.userMap uid = some c)
    (hcl : (s.chans c.cid).closed = false)
    (hfull : (s.chans c.cid).cap ≤ (s.chans c.cid).buf.length) :
    sendToUser s uid (some w)
      = ({ clients := s.clients.filter (fun x => x.cid ≠ c.cid),
           userMap := removeA s.userMap c.userID,
           chans := updateF s.chans c.cid
             (Chan.mk (s.chans c.cid).buf (s.chans c.cid).cap true),
           faulted := s.faulted }, none) := by
  have hts : trySend (s.chans c.cid) w = .wouldBlock := by
    unfold trySend
    rw [if_neg (by simp [hcl]), if_neg (by omega)]
  have hcc : closeChan s.chans c.cid
      = (updateF s.chans c.cid
          (Chan.mk (s.chans c.cid).buf (s.chans c.cid).cap true), false) := by
    unfold closeChan
    rw [if_neg (by simp [hcl])]
  simp only [sendToUser, hc, hts, hcc]
  simp

/-- The number of hits equals the occurrence count of one identity when
every list element hits exactly when it equals that identity. -/
theorem hits_eq_countOcc (m : List (Int × Client)) (k : Nat) (u : Int)
    (ps : List Int) (h : ∀ x ∈ ps, hitB m k x = (x == u)) :
    hits m k ps = countOcc u ps := by
  induction ps with
  | nil => rfl
  | cons v rest ih =>
    have hv := h v (List.mem_cons_self v rest)
    have hrest := ih (fun x hx => h x (List.mem_cons_of_mem v hx))
    unfold hits countOcc
    rw [hv, hrest]
    congr 1
    by_cases hvu : v = u
    · simp [hvu]
    · simp [hvu]

theorem countOcc_pos (u : Int) (ps : List Int) (h : u ∈ ps) :
    1 ≤ countOcc u ps := by
  induction ps with
  | nil => cases h
  | cons v rest ih =>
    rcases List.mem_cons.mp h with hv | hrest
    · subst hv
      unfold countOcc
      rw [if_pos rfl]
      omega
    · have hr := ih hrest
      unfold countOcc
      split <;> omega

/-- C10 (confirmed): scoped delivery enqueues exactly one copy of the
serialized envelope per occurrence of a registered identity in the
supplied participant list — no deduplication of repeated identities and
no exclusion of the sender — so a sender appearing in the participant
list of the conversation receives an echo of the own chat message. -/
theorem scoped_delivery_per_occurrence (s : HubState) (conv : Int) (w : Wire)
    (ps : List Int) (u : Int) (c : Client)
    (hcl : (s.chans c.cid).closed = false)
    (hroom : (s.chans c.cid).buf.length + hits s.userMap c.cid ps
        ≤ (s.chans c.cid).cap)
    (honly : ∀ x ∈ ps, hitB s.userMap c.cid x = (x == u)) :
    ((sendToConversation s conv (some w) ps).1.chans c.cid).buf
        = (s.chans c.cid).buf ++ List.replicate (countOcc u ps) w ∧
    (u ∈ ps → 1 ≤ countOcc u ps) := by
  constructor
  · have hb := (scopedFold_buf ps s w c.cid hcl hroom).1
    rw [hits_eq_countOcc s.userMap c.cid u ps honly] at hb
    exact hb
  · intro hu
    exact countOcc_pos u ps hu

theorem scoped_delivery_per_occurrence_witness :
    ((sendToConversation sAlice 7 (some wX) [1, 1, 3]).1.chans cAlice.cid).buf
        = (sAlice.chans cAlice.cid).buf
            ++ List.replicate (countOcc 1 [1, 1, 3]) wX ∧
    ((1 : Int) ∈ [1, 1, 3] → 1 ≤ countOcc 1 [1, 1, 3]) :=
  scoped_delivery_per_occurrence sAlice 7 wX [1, 1, 3] 1 cAlice
    (by decide) (by decide) (by decide)

/-! Assoc-list lemmas for the registry maps. -/

theorem lookupA_cons (e : Int × Client) (rest : List (Int × Client)) (k : Int) :
    lookupA (e :: rest) k = if e.1 = k then some e.2 else lookupA rest k := rfl

theorem updateA_cons (e : Int × Client) (rest : List (Int × Client)) (k : Int)
    (v : Client) :
    updateA (e :: rest) k v
      = if e.1 = k then (k, v) :: rest else e :: updateA rest k v := rfl

theorem updateA_absent (m : List (Int × Client)) (k : Int) (v : Client)
    (h : lookupA m k = none) : updateA m k v = m ++ [(k, v)] := by
  induction m with
  | nil => rfl
  | cons e rest ih =>
    rw [lookupA_cons] at h
    by_cases he : e.1 = k
    · rw [if_pos he] at h
      exact absurd h (by simp)
    · rw [if_neg he] at h
      rw [updateA_cons, if_neg he, ih h]
      rfl

theorem lookupA_append_some (m1 m2 : List (Int × Client)) (k : Int) (v : Client)
    (h : lookupA m1 k = some v) : lookupA (m1 ++ m2) k = some v := by
  induction m1 with
  | nil => exact absurd h (by simp [lookupA])
  | cons e rest ih =>
    rw [lookupA_cons] at h
    show lookupA (e :: (rest ++ m2)) k = some v
    rw [lookupA_cons]
    by_cases he : e.1 = k
    · rw [if_pos he] at h
      rw [if_pos he]
      exact h
    · rw [if_neg he] at h
      rw [if_neg he]
      exact ih h

theorem lookupA_append_none (m1 m2 : List (Int × Client)) (k : Int)
    (h : lookupA m1 k = none) : lookupA (m1 ++ m2) k = lookupA m2 k := by
  induction m1 with
  | nil => rfl
  | cons e rest ih =>
    rw [lookupA_cons] at h
    by_cases he : e.1 = k
    · rw [if_pos he] at h
      exact absurd h (by simp)
    · rw [if_neg he] at h
      show lookupA (e :: (rest ++ m2)) k = lookupA m2 k
      rw [lookupA_cons, if_neg he]
      exact ih h

theorem lookupA_removeA_ne (m : List (Int × Client)) (k k2 : Int)
    (h : ¬ k2 = k) : lookupA (removeA m k) k2 = lookupA m k2 := by
  induction m with
  | nil => rfl
  | cons e rest ih =>
    unfold removeA at *
    by_cases he : e.1 = k
    · have hne2 : ¬ e.1 = k2 := by
        intro hek
        rw [hek] at he
        exact h he
      have hf : (e :: rest).filter (fun e => e.1 ≠ k)
          = rest.filter (fun e => e.1 ≠ k) := by
        simp [List.filter_cons, he]
      have hr : lookupA (e :: rest) k2 = lookupA rest k2 := by
        rw [lookupA_cons, if_neg hne2]
      rw [hf, hr]
      exact ih
    · have hf : (e :: rest).filter (fun e => e.1 ≠ k)
          = e :: rest.filter (fun e => e.1 ≠ k) := by
        simp [List.filter_cons, he]
      rw [hf, lookupA_cons, lookupA_cons]
      by_cases he2 : e.1 = k2
      · rw [if_pos he2, if_pos he2]
      · rw [if_neg he2, if_neg he2]
        exact ih

theorem not_key_of_lookupA_none (m : List (Int × Client)) (k : Int)
    (h : lookupA m k = none) : k ∉ m.map Prod.fst := by
  induction m with
  | nil => simp
  | cons e rest ih =>
    rw [lookupA_cons] at h
    by_cases he : e.1 = k
    · rw [if_pos he] at h
      exact absurd h (by simp)
    · rw [if_neg he] at h
      simp only [List.map_cons, List.mem_cons]
      rintro (h1 | h2)
      · exact he h1.symm
      · exact ih h h2

theorem any_cid_false (l : List Client) (c : Client)
    (h : c.cid ∉ l.map (fun x => x.cid)) :
    l.any (fun x => x.cid == c.cid) = false := by
  rw [List.any_eq_false]
  intro x hx hp
  apply h
  have : x.cid = c.cid := by simpa using hp
  rw [← this]
  exact List.mem_map.mpr ⟨x, hx, rfl⟩

theorem any_cid_true (l : List Client) (c : Client) (h : c ∈ l) :
    l.any (fun x => x.cid == c.cid) = true :=
  List.any_eq_true.mpr ⟨c, h, by simp⟩

theorem hubRegister_clients_fresh (s : HubState) (c : Client)
    (hf : c.cid ∉ s.clients.map (fun x => x.cid)) :
    (hubRegister s c).clients = s.clients ++ [c] := by
  have hany := any_cid_false s.clients c hf
  unfold hubRegister
  rw [if_neg (by simp [hany])]

theorem hubRegister_userMap (s : HubState) (c : Client) :
    (hubRegister s c).userMap = updateA s.userMap c.userID c := rfl

/-- Registering a fresh connection with an unmapped identity preserves
registry consistency. -/
theorem good_register (s : HubState) (c : Client) (hg : good s)
    (hl : lookupA s.userMap c.userID = none)
    (hf : c.cid ∉ s.clients.map (fun x => x.cid)) :
    good (hubRegister s c) := by
  obtain ⟨hg1, hg2, hg3, hg4⟩ := hg
  have hcl := hubRegister_clients_fresh s c hf
  have hum : (hubRegister s c).userMap = s.userMap ++ [(c.userID, c)] := by
    rw [hubRegister_userMap, updateA_absent s.userMap c.userID c hl]
  refine ⟨?_, ?_, ?_, ?_⟩
  · intro c2 hc2
    rw [hcl] at hc2
    rw [hum]
    rcases List.mem_append.mp hc2 with hmem | hone
    · rw [lookupA_append_some s.userMap [(c.userID, c)] c2.userID c2 (hg1 c2 hmem)]
    · have hc2c : c2 = c := by simpa using hone
      rw [hc2c, lookupA_append_none s.userMap _ c.userID hl, lookupA_cons,
        if_pos rfl]
  · intro e he
    rw [hum] at he
    rw [hcl]
    rcases List.mem_append.mp he with hmem | hone
    · obtain ⟨he1, he2⟩ := hg2 e hmem
      exact ⟨List.mem_append_left _ he1, he2⟩
    · have hec : e = (c.userID, c) := by simpa using hone
      subst hec
      exact ⟨List.mem_append_right _ (by simp), rfl⟩
  · rw [hum, List.map_append]
    apply List.Nodup.append hg3 (by simp)
    intro x hx hx2
    simp only [List.map_cons, List.map_nil, List.mem_singleton] at hx2
    rw [hx2] at hx
    exact not_key_of_lookupA_none s.userMap c.userID hl hx
  · rw [hcl, List.map_append]
    apply List.Nodup.append hg4 (by simp)
    intro x hx hx2
    simp only [List.map_cons, List.map_nil, List.mem_singleton] at hx2
    rw [hx2] at hx
    exact hf hx

/-- Unregistering preserves registry consistency, provided the operation
names the stored connection when its pointer is present. -/
theorem good_unregister (s : HubState) (c : Client) (hg : good s)
    (hid : ∀ x ∈ s.clients, x.cid = c.cid → x = c) :
    good (hubUnregister s c) := by
  obtain ⟨hg1, hg2, hg3, hg4⟩ := hg
  by_cases hmem : s.clients.any (fun x => x.cid == c.cid) = true
  · have hc : c ∈ s.clients := by
      rcases List.any_eq_true.mp hmem with ⟨x, hx, hxe⟩
      have hxc : x.cid = c.cid := by simpa using hxe
      have hxcc := hid x hx hxc
      rw [← hxcc]
      exact hx
    have hcl : (hubUnregister s c).clients
        = s.clients.filter (fun x => x.cid ≠ c.cid) := by
      unfold hubUnregister
      rw [if_pos hmem]
    have hum : (hubUnregister s c).userMap = removeA s.userMap c.userID := by
      unfold hubUnregister
      rw [if_pos hmem]
    refine ⟨?_, ?_, ?_, ?_⟩
    · intro c2 hc2
      rw [hcl] at hc2
      rw [hum]
      have hmf := List.mem_filter.mp hc2
      have hcid : ¬ c2.cid = c.cid := by simpa using hmf.2
      have hne : ¬ c2.userID = c.userID := by
        intro he
        have h1 := hg1 c2 hmf.1
        have h2 := hg1 c hc
        rw [he] at h1
        rw [h1] at h2
        have hc2c : c2 = c := by simpa using h2
        exact hcid (by rw [hc2c])
      rw [lookupA_removeA_ne s.userMap c.userID c2.userID hne]
      exact hg1 c2 hmf.1
    · intro e he
      rw [hum] at he
      rw [hcl]
      unfold removeA at he
      have hmf := List.mem_filter.mp he
      obtain ⟨he1, he2⟩ := hg2 e hmf.1
      have hk : ¬ e.1 = c.userID := by simpa using hmf.2
      refine ⟨?_, he2⟩
      apply List.mem_filter.mpr
      refine ⟨he1, ?_⟩
      simp only [decide_eq_true_eq]
      intro hcc
      have hec := hid e.2 he1 hcc
      apply hk
      rw [← he2, hec]
    · rw [hum]
      unfold removeA
      exact List.Nodup.sublist
        (List.Sublist.map Prod.fst (List.filter_sublist _)) hg3
    · rw [hcl]
      exact List.Nodup.sublist
        (List.Sublist.map (fun x : Client => x.cid) (List.filter_sublist _)) hg4
  · rw [hubUnregister_noop s c hmem]
    exact ⟨hg1, hg2, hg3, hg4⟩

theorem good_runOps (ops : List HubOp) :
    ∀ s : HubState, good s → okRun s ops → good (runOps s ops) := by
  induction ops with
  | nil => intro s hg _; exact hg
  | cons op rest ih =>
    intro s hg hok
    cases op with
    | register c =>
      have h : lookupA s.userMap c.userID = none
          ∧ c.cid ∉ s.clients.map (fun x => x.cid)
          ∧ okRun (hubStep s (.register c)) rest := hok
      exact ih (hubStep s (.register c)) (good_register s c hg h.1 h.2.1) h.2.2
    | unregister c =>
      have h : (∀ x ∈ s.clients, x.cid = c.cid → x = c)
          ∧ okRun (hubStep s (.unregister c)) rest := hok
      exact ih (hubStep s (.unregister c)) (good_unregister s c hg h.1) h.2

theorem updateA_append_key (m : List (Int × Client)) (k : Int) (a b : Client)
    (h : lookupA m k = none) :
    updateA (m ++ [(k, a)]) k b = m ++ [(k, b)] := by
  induction m with
  | nil =>
    show updateA ((k, a) :: []) k b = [(k, b)]
    rw [updateA_cons, if_pos rfl]
  | cons e rest ih =>
    rw [lookupA_cons] at h
    by_cases he : e.1 = k
    · rw [if_pos he] at h
      exact absurd h (by simp)
    · rw [if_neg he] at h
      show updateA (e :: (rest ++ [(k, a)])) k b = e :: (rest ++ [(k, b)])
      rw [updateA_cons, if_neg he, ih h]

/-- Registering a second connection for a mapped identity and then
unregistering the superseded one leaves the replacement live with no
identity-map entry. -/
theorem overwrite_not_restored (s : HubState) (u : Int) (a b : Client)
    (hg : good s)
    (hl : lookupA s.userMap u = none)
    (hau : a.userID = u) (hbu : b.userID = u)
    (haf : a.cid ∉ s.clients.map (fun x => x.cid))
    (hbf : b.cid ∉ s.clients.map (fun x => x.cid))
    (hab : ¬ b.cid = a.cid) :
    b ∈ (hubUnregister (hubRegister (hubRegister s a) b) a).clients ∧
    lookupA (hubUnregister (hubRegister (hubRegister s a) b) a).userMap u
      = none := by
  have hcl1 := hubRegister_clients_fresh s a haf
  have hum1 : (hubRegister s a).userMap = s.userMap ++ [(u, a)] := by
    rw [hubRegister_userMap, hau, updateA_absent s.userMap u a hl]
  have hbf1 : b.cid ∉ (hubRegister s a).clients.map (fun x => x.cid) := by
    rw [hcl1, List.map_append]
    intro hmem
    rcases List.mem_append.mp hmem with h1 | h2
    · exact hbf h1
    · simp only [List.map_cons, List.map_nil, List.mem_singleton] at h2
      exact hab h2
  have hcl2 := hubRegister_clients_fresh (hubRegister s a) b hbf1
  have hum2 : (hubRegister (hubRegister s a) b).userMap
      = s.userMap ++ [(u, b)] := by
    rw [hubRegister_userMap, hbu, hum1, updateA_append_key s.userMap u a b hl]
  have hamem : a ∈ (hubRegister (hubRegister s a) b).clients := by
    rw [hcl2, hcl1]
    exact List.mem_append_left _ (List.mem_append_right _ (by simp))
  have hany := any_cid_true (hubRegister (hubRegister s a) b).clients a hamem
  have hcl3 : (hubUnregister (hubRegister (hubRegister s a) b) a).clients
      = (hubRegister (hubRegister s a) b).clients.filter
          (fun x => x.cid ≠ a.cid) := by
    unfold hubUnregister
    rw [if_pos hany]
  have hum3 : (hubUnregister (hubRegister (hubRegister s a) b) a).userMap
      = removeA (hubRegister (hubRegister s a) b).userMap a.userID := by
    unfold hubUnregister
    rw [if_pos hany]
  constructor
  · rw [hcl3]
    apply List.mem_filter.mpr
    constructor
    · rw [hcl2]
      exact List.mem_append_right _ (by simp)
    · simpa using hab
  · rw [hum3, hau]
    exact lookupA_removeA_self _ u

/-- C2 (corrected, amended): for every operation sequence in which each
registration is of a freshly constructed connection whose identity is
not currently mapped, the registry live set and identity map remain a
bijection.  Registering a second connection for an already mapped
identity replaces the identity-map entry without closing or removing the
superseded connection; when that superseded connection then runs its own
unregister, the registry deletes the identity-map entry by user id —
removing the entry of the replacing connection — so the bijection is NOT
restored: the replacing connection stays in the live set with no
identity-map entry. -/
theorem registry_bijection_amended :
    (∀ (ops : List HubOp) (s : HubState),
      good s → okRun s ops → good (runOps s ops)) ∧
    (∀ (s : HubState) (u : Int) (a b : Client),
      good s → lookupA s.userMap u = none →
      a.userID = u → b.userID = u →
      a.cid ∉ s.clients.map (fun x => x.cid) →
      b.cid ∉ s.clients.map (fun x => x.cid) →
      ¬ b.cid = a.cid →
      b ∈ (hubUnregister (hubRegister (hubRegister s a) b) a).clients ∧
      lookupA (hubUnregister (hubRegister (hubRegister s a) b) a).userMap u
        = none) :=
  ⟨fun ops s hg hok => good_runOps ops s hg hok,
   fun s u a b hg hl hau hbu haf hbf hab =>
     overwrite_not_restored s u a b hg hl hau hbu haf hbf hab⟩

theorem registry_bijection_amended_witness :
    good (runOps sEmpty [.register cDupA, .unregister cDupA]) ∧
    (cDupB ∈ (hubUnregister (hubRegister (hubRegister sEmpty cDupA) cDupB)
        cDupA).clients ∧
     lookupA (hubUnregister (hubRegister (hubRegister sEmpty cDupA) cDupB)
        cDupA).userMap 5 = none) :=
  ⟨registry_bijection_amended.1 [.register cDupA, .unregister cDupA] sEmpty
     (by decide) ⟨rfl, by decide, by decide, trivial⟩,
   registry_bijection_amended.2 sEmpty 5 cDupA cDupB (by decide) rfl rfl rfl
     (by decide) (by decide) (by decide)⟩

/-- State with alice (channel 0, empty queue) and bob (channel 1, full
queue) both registered. -/
def sMixed : HubState :=
  ⟨[cAlice, cBob], [(1, cAlice), (2, cBob)],
   fun k => if k = 1 then fullChan else emptyChan, false⟩

/-- C1 (corrected, amended): the backpressure policy is not uniform
across the three strategies.  Direct delivery and broadcast drop the
message for a saturated recipient and evict it — its queue is closed and
it is removed from the live set and the identity map.  Scoped delivery
never mutates the registry: a saturated recipient keeps its open queue
and its registration and only the message is dropped, while every other
registered participant with room still receives the message. -/
theorem backpressure_eviction_amended :
    (∀ (s : HubState) (uid : Int) (w : Wire) (c : Client),
      lookupA s.userMap uid = some c →
      (s.chans c.cid).closed = false →
      (s.chans c.cid).cap ≤ (s.chans c.cid).buf.length →
      sendToUser s uid (some w)
        = ({ clients := s.clients.filter (fun x => x.cid ≠ c.cid),
             userMap := removeA s.userMap c.userID,
             chans := updateF s.chans c.cid
               (Chan.mk (s.chans c.cid).buf (s.chans c.cid).cap true),
             faulted := s.faulted }, none)) ∧
    (∀ (s : HubState) (w : Wire) (c : Client),
      c ∈ s.clients →
      (s.clients.map (fun x => x.cid)).Nodup →
      (s.chans c.cid).closed = false →
      (s.chans c.cid).cap ≤ (s.chans c.cid).buf.length →
      (hubBroadcast s w).chans c.cid
          = Chan.mk (s.chans c.cid).buf (s.chans c.cid).cap true ∧
      (∀ x ∈ (hubBroadcast s w).clients, ¬ x.cid = c.cid) ∧
      lookupA (hubBroadcast s w).userMap c.userID = none) ∧
    (∀ (s : HubState) (conv : Int) (w : Wire) (ps : List Int),
      (sendToConversation s conv (some w) ps).1.clients = s.clients ∧
      (sendToConversation s conv (some w) ps).1.userMap = s.userMap ∧
      (∀ k : Nat, (s.chans k).closed = false →
        (s.chans k).cap ≤ (s.chans k).buf.length →
        (sendToConversation s conv (some w) ps).1.chans k = s.chans k)) ∧
    (∀ (s : HubState) (conv : Int) (w : Wire) (ps : List Int) (k : Nat),
      (s.chans k).closed = false →
      (s.chans k).buf.length + hits s.userMap k ps ≤ (s.chans k).cap →
      ((sendToConversation s conv (some w) ps).1.chans k).buf
        = (s.chans k).buf ++ List.replicate (hits s.userMap k ps) w) := by
  refine ⟨?_, ?_, ?_, ?_⟩
  · intro s uid w c hc hcl hfull
    exact sendToUser_full_evicts s uid w c hc hcl hfull
  · intro s w c hc hnd hcl hfull
    exact bfold_evicts s.clients s w c hc hnd hcl hfull
  · intro s conv w ps
    exact ⟨scopedFold_clients ps s w, scopedFold_userMap ps s w,
      fun k hcl hfull => scopedFold_chans_full ps s w k hcl hfull⟩
  · intro s conv w ps k hcl hle
    exact (scopedFold_buf ps s w k hcl hle).1

theorem backpressure_eviction_amended_witness :
    sendToUser sMixed 2 (some wX)
      = ({ clients := sMixed.clients.filter (fun x => x.cid ≠ cBob.cid),
           userMap := removeA sMixed.userMap cBob.userID,
           chans := updateF sMixed.chans cBob.cid
             (Chan.mk (sMixed.chans cBob.cid).buf (sMixed.chans cBob.cid).cap true),
           faulted := sMixed.faulted }, none) ∧
    ((hubBroadcast sMixed wX).chans cBob.cid
        = Chan.mk (sMixed.chans cBob.cid).buf (sMixed.chans cBob.cid).cap true ∧
     (∀ x ∈ (hubBroadcast sMixed wX).clients, ¬ x.cid = cBob.cid) ∧
     lookupA (hubBroadcast sMixed wX).userMap cBob.userID = none) ∧
    ((sendToConversation sMixed 7 (some wX) [1, 2]).1.clients = sMixed.clients ∧
     (sendToConversation sMixed 7 (some wX) [1, 2]).1.userMap = sMixed.userMap ∧
     (sendToConversation sMixed 7 (some wX) [1, 2]).1.chans cBob.cid
        = sMixed.chans cBob.cid) ∧
    ((sendToConversation sMixed 7 (some wX) [1, 2]).1.chans cAlice.cid).buf
        = (sMixed.chans cAlice.cid).buf
            ++ List.replicate (hits sMixed.userMap cAlice.cid [1, 2]) wX :=
  ⟨backpressure_eviction_amended.1 sMixed 2 wX cBob (by decide) rfl (by decide),
   backpressure_eviction_amended.2.1 sMixed wX cBob (by decide) (by decide)
     rfl (by decide),
   ⟨(backpressure_eviction_amended.2.2.1 sMixed 7 wX [1, 2]).1,
    (backpressure_eviction_amended.2.2.1 sMixed 7 wX [1, 2]).2.1,
    (backpressure_eviction_amended.2.2.1 sMixed 7 wX [1, 2]).2.2 cBob.cid
      rfl (by decide)⟩,
   backpressure_eviction_amended.2.2.2 sMixed 7 wX [1, 2] cAlice.cid
     rfl (by decide)⟩

/-- C8 (confirmed): a well-formed typing frame triggers no persistence
call and is handed as a typing envelope carrying the sender identity,
the conversation id and the is-typing flag to broadcast, which attempts
delivery to every currently registered connection irrespective of
conversation membership; every registered connection with an open,
non-full queue receives it. -/
theorem typing_broadcast_no_persistence (db : Db) (senderId : Int) (now : Nat)
    (s : HubState) (conv : Int) (ist : Bool) :
    handleFrame db senderId now s (.typing conv ist)
      = (hubBroadcast s (.typing senderId conv ist), []) ∧
    (∀ c ∈ s.clients,
      (s.clients.map (fun x => x.cid)).Nodup →
      (s.chans c.cid).closed = false →
      (s.chans c.cid).buf.length < (s.chans c.cid).cap →
      ((hubBroadcast s (.typing senderId conv ist)).chans c.cid).buf
        = (s.chans c.cid).buf ++ [.typing senderId conv ist]) := by
  refine ⟨rfl, ?_⟩
  intro c hc hnd hcl hlt
  exact bfold_delivers s.clients s (.typing senderId conv ist) c hc hnd hcl hlt

/-- Database oracle that always fails. -/
def dbNone : Db := ⟨fun _ _ _ _ => none, fun _ => none⟩

theorem typing_broadcast_no_persistence_witness :
    handleFrame dbNone 1 0 sAlice (.typing 7 true)
      = (hubBroadcast sAlice (.typing 1 7 true), []) ∧
    ((hubBroadcast sAlice (.typing 1 7 true)).chans cAlice.cid).buf
      = (sAlice.chans cAlice.cid).buf ++ [.typing 1 7 true] :=
  ⟨(typing_broadcast_no_persistence dbNone 1 0 sAlice 7 true).1,
   (typing_broadcast_no_persistence dbNone 1 0 sAlice 7 true).2 cAlice
     (by decide) (by decide) (by decide) (by decide)⟩

theorem writePump_termination_amended_witness :
    ((writePumpRun (fun _ => true) 1 0 ⟨[], 256, false⟩ []).outcome
        = .running) ∧
    ((writePumpRun (fun _ => true) 2 0 ⟨[wX], 256, true⟩ []).outcome
        = .exitClosed ∧
     (writePumpRun (fun _ => true) 2 0 ⟨[wX], 256, true⟩ []).connClosed
        = true) ∧
    (writePumpRun (fun _ => false) 2 0 ⟨[wX], 256, false⟩ []).connClosed
        = true :=
  ⟨writePump_termination_amended.1 (fun _ => true) 1 0 ⟨[], 256, false⟩ []
      (fun _ => rfl) rfl,
   writePump_termination_amended.2.1 (fun _ => true) 2 0 ⟨[wX], 256, true⟩ []
      (fun _ => rfl) rfl (by decide),
   writePump_termination_amended.2.2 (fun _ => false) 2 0 ⟨[wX], 256, false⟩ []
      (by decide)⟩

/-- C3 (confirmed): the inbound pump persists a chat frame — with the
sender identity, the given conversation id and the given content —
before any delivery is attempted.  When the save fails, no delivery
occurs and nothing is enqueued (the hub state is returned unchanged and
the only database call is the save) and the pump continues with the next
frame.  When the save and the participant lookup succeed, the persisted
record including the generated id becomes the payload handed to scoped
delivery with the participant list obtained from persistence. -/
theorem chat_persist_before_delivery :
    (∀ (db : Db) (senderId : Int) (now : Nat) (s : HubState)
        (conv : Int) (content : String) (rest : List Frame),
      db.save conv senderId content now = none →
      handleFrame db senderId now s (.message conv content)
          = (s, [.save conv senderId content]) ∧
      readPumpFrames db senderId now s (Frame.message conv content :: rest)
          = readPumpFrames db senderId now s rest) ∧
    (∀ (db : Db) (senderId : Int) (now : Nat) (s : HubState)
        (conv : Int) (content : String) (newId : Int) (ps : List Int),
      db.save conv senderId content now = some newId →
      db.participantsOf conv = some ps →
      handleFrame db senderId now s (.message conv content)
          = ((sendToConversation s conv
                (some (.message (Message.mk newId conv senderId content now)))
                ps).1,
             [.save conv senderId content, .getParticipants conv])) := by
  constructor
  · intro db senderId now s conv content rest hsave
    have h1 : handleFrame db senderId now s (.message conv content)
        = (s, [.save conv senderId content]) := by
      simp [handleFrame, hsave]
    refine ⟨h1, ?_⟩
    unfold readPumpFrames
    rw [List.foldl_cons, h1]
  · intro db senderId now s conv content newId ps hsave hparts
    simp [handleFrame, hsave, hparts]

/-- Database oracle that persists with a fixed id and a fixed
participant list. -/
def dbOk : Db := ⟨fun _ _ _ _ => some 42, fun _ => some [1, 2]⟩

theorem chat_persist_before_delivery_witness :
    (handleFrame dbNone 1 0 sAlice (.message 7 "hi")
        = (sAlice, [.save 7 1 "hi"]) ∧
     readPumpFrames dbNone 1 0 sAlice [Frame.message 7 "hi"]
        = readPumpFrames dbNone 1 0 sAlice []) ∧
    handleFrame dbOk 1 0 sAlice (.message 7 "hi")
        = ((sendToConversation sAlice 7
              (some (.message (Message.mk 42 7 1 "hi" 0))) [1, 2]).1,
           [.save 7 1 "hi", .getParticipants 7]) :=
  ⟨chat_persist_before_delivery.1 dbNone 1 0 sAlice 7 "hi" [] rfl,
   chat_persist_before_delivery.2 dbOk 1 0 sAlice 7 "hi" 42 [1, 2] rfl rfl⟩

/-- C5 (corrected, amended): every admission failure — missing
credential, invalid signature, expired token, unknown user — rejects the
upgrade with a non-2xx response (status 401 for the three credential
failures, which all share one identical response, and 404 for an unknown
user), the protocol upgrade is not performed and no connection is
constructed or registered: the hub state is returned unchanged. -/
theorem admission_failures_reject_amended
    (users : Int → Option String) (s : HubState) (cid : Nat) :
    handleWebSocket users s .missing cid = (s, .rejected 401 "Unauthorized") ∧
    (∀ (ex : Bool) (uid : Int),
      handleWebSocket users s (.token false ex uid) cid
        = (s, .rejected 401 "Unauthorized")) ∧
    (∀ (sv : Bool) (uid : Int),
      handleWebSocket users s (.token sv true uid) cid
        = (s, .rejected 401 "Unauthorized")) ∧
    (∀ uid : Int, users uid = none →
      handleWebSocket users s (.token true false uid) cid
        = (s, .rejected 404 "User not found")) := by
  refine ⟨rfl, ?_, ?_, ?_⟩
  · intro ex uid
    rfl
  · intro sv uid
    cases sv <;> rfl
  · intro uid h
    simp [handleWebSocket, h]

theorem admission_failures_reject_amended_witness :
    handleWebSocket noUsers sEmpty .missing 0
      = (sEmpty, .rejected 401 "Unauthorized") ∧
    handleWebSocket noUsers sEmpty (.token true false 3) 0
      = (sEmpty, .rejected 404 "User not found") :=
  ⟨(admission_failures_reject_amended noUsers sEmpty 0).1,
   (admission_failures_reject_amended noUsers sEmpty 0).2.2.2 3 rfl⟩

/-- Scoped delivery to alice and bob, then teardown of bob.  The hub
lock is held for the whole scoped-delivery loop and for the whole
unregister block, so the two critical sections serialize; this is one of
the two possible orders. -/
def deliverThenTeardown : HubState :=
  hubUnregister (sendToConversation sMixed 7 (some wX) [1, 2]).1 cBob

/-- Teardown of bob, then the scoped delivery to alice and bob: the
other serialization order. -/
def teardownThenDeliver : HubState :=
  (sendToConversation (hubUnregister sMixed cBob) 7 (some wX) [1, 2]).1

/-- C9 (confirmed): when the teardown path evicts bob while an in-flight
scoped delivery targets alice and bob and takes the full-queue branch
for bob, then — in both serialization orders permitted by the registry
lock — the bob queue is closed exactly once (no close-after-close fault
is recorded, since scoped delivery never closes a queue), bob is removed
from both registry structures, and the delivery to alice is unaffected:
her queue receives the envelope. -/
theorem concurrent_eviction_no_double_close :
    (deliverThenTeardown.faulted = false ∧
     (deliverThenTeardown.chans cAlice.cid).buf = [wX] ∧
     (deliverThenTeardown.chans cBob.cid).closed = true ∧
     deliverThenTeardown.clients = [cAlice] ∧
     lookupA deliverThenTeardown.userMap cBob.userID = none) ∧
    (teardownThenDeliver.faulted = false ∧
     (teardownThenDeliver.chans cAlice.cid).buf = [wX] ∧
     (teardownThenDeliver.chans cBob.cid).closed = true ∧
     teardownThenDeliver.clients = [cAlice] ∧
     lookupA teardownThenDeliver.userMap cBob.userID = none) :=
  ⟨⟨by decide, by decide, by decide, by decide, by decide⟩,
   ⟨by decide, by decide, by decide, by decide, by decide⟩⟩

end MessageApp
